import Mathlib

/-!
Verification of `scripts/dataflash_to_influx.py` and `data-analytics/polaris.py`
from the UAVAndFun repository, as a shallow embedding in Lean 4.

Python dictionaries preserve insertion order, so a `dict` is embedded as an
association list `List (String × PyValue)`.  Python's dynamically typed field
values (the values of `msg.to_dict()`) are embedded as the inductive `PyValue`.
A Python `float` is carried together with its printed representation `str(v)`
(which round-trips floats), since the program only ever prints floats; no float
arithmetic from the source is in scope.
-/

/-- A Python value as it occurs in a decoded DataFlash record:
`None`, `bool`, `int`, `float` (carried by its `str(v)` text), or `str`. -/
inductive PyValue where
  | none : PyValue
  | bool : Bool → PyValue
  | int : Int → PyValue
  | float : String → PyValue
  | str : String → PyValue
deriving DecidableEq, Repr

/-- Python `str(v)` for a `PyValue` (used by f-string interpolation `f"{v}"`). -/
def pyStr : PyValue → String
  | PyValue.none => "None"
  | PyValue.bool b => if b then "True" else "False"
  | PyValue.int n => toString n
  | PyValue.float r => r
  | PyValue.str s => s

/-- `v is None` in Python. -/
def isNoneV : PyValue → Bool
  | PyValue.none => true
  | _ => false

/-- Python truthiness `bool(v)`.  A float is falsy exactly when it is zero,
i.e. when its `str` form is `"0.0"` or `"-0.0"` (Python `str` on floats is
injective up to the sign of zero). -/
def pyTruthy : PyValue → Bool
  | PyValue.none => false
  | PyValue.bool b => b
  | PyValue.int n => n ≠ 0
  | PyValue.float r => ¬(r = "0.0" ∨ r = "-0.0")
  | PyValue.str s => s ≠ ""

/-- Python `",".join(l)`. -/
def joinComma : List String → String
  | [] => ""
  | [s] => s
  | s :: rest => s ++ "," ++ joinComma rest

/-- `{k: v for k, v in fields.items() if v is not None}` — the filtering of
null-valued entries performed at the top of `_format_line` and `_create_point`. -/
def cleanFieldsOf (fields : List (String × PyValue)) : List (String × PyValue) :=
  fields.filter (fun kv => !isNoneV kv.2)

/-- One entry of the field section of `_format_line`: the body of the
`for k, v in clean_fields.items()` loop (line 89–97 of
`scripts/dataflash_to_influx.py`).  `isinstance(v, bool)` is tested before
`isinstance(v, int)`, exactly as in the source. -/
def renderField : String × PyValue → String
  | (k, PyValue.bool b) => k ++ "=" ++ (if b then "true" else "false")
  | (k, PyValue.int n) => k ++ "=" ++ toString n ++ "i"
  | (k, PyValue.float r) => k ++ "=" ++ r
  | (k, v) => k ++ "=\"" ++ pyStr v ++ "\""

/-- `_format_line` (lines 81–99 of `scripts/dataflash_to_influx.py`):
line protocol string, or `none` when no non-null field remains. -/
def formatLine (measurement : String) (tags fields : List (String × PyValue))
    (ts_us : Int) : Option String :=
  let clean_fields := cleanFieldsOf fields
  if clean_fields.isEmpty then
    Option.none
  else
    let tag_str := joinComma ((tags.filter (fun kv => !isNoneV kv.2)).map
      (fun kv => kv.1 ++ "=" ++ pyStr kv.2))
    let field_str := joinComma (clean_fields.map renderField)
    Option.some (measurement ++ (if tag_str = "" then "" else "," ++ tag_str)
      ++ " " ++ field_str ++ " " ++ toString ts_us)

/-! Spec-side rendering, written from the words of the specification (§4.5),
to be compared with `formatLine`, which is written from the source. -/

/-- Spec §4.5: the tag section including its leading comma, omitted entirely
when no non-null tag is present; null-valued tags dropped; the rest joined with
commas in insertion order. -/
def specTagSection (tags : List (String × PyValue)) : String :=
  let kept := tags.filter (fun kv => !isNoneV kv.2)
  if kept = [] then ""
  else "," ++ joinComma (kept.map (fun kv => kv.1 ++ "=" ++ pyStr kv.2))

/-- Spec §4.5: a field value rendered by type — booleans as lowercase
`true`/`false`, integers with a trailing `i`, floats bare, anything else
double-quoted with no escaping. -/
def specFieldValue : PyValue → String
  | PyValue.bool true => "true"
  | PyValue.bool false => "false"
  | PyValue.int n => toString n ++ "i"
  | PyValue.float r => r
  | v => "\"" ++ pyStr v ++ "\""

/-- Spec §4.5: `measurement[,tag1=v1,...] field1=v1,... timestamp`, fields
joined with commas in insertion order after dropping null-valued ones. -/
def specLine (measurement : String) (tags fields : List (String × PyValue))
    (ts_us : Int) : String :=
  measurement ++ specTagSection tags ++ " "
    ++ joinComma ((cleanFieldsOf fields).map
        (fun kv => kv.1 ++ "=" ++ specFieldValue kv.2))
    ++ " " ++ toString ts_us

lemma length_joinComma_cons (p : String) (ps : List String) :
    p.length ≤ (joinComma (p :: ps)).length := by
  cases ps with
  | nil => simp [joinComma]
  | cons q qs =>
      simp [joinComma, String.length_append]
      omega

lemma joinComma_ne_empty (p : String) (ps : List String) (hp : p ≠ "") :
    joinComma (p :: ps) ≠ "" := by
  intro h
  have h1 : 0 < p.length := by
    cases hs : p.length with
    | zero =>
        exact absurd (String.ext (List.length_eq_zero.mp hs)) hp
    | succ n => omega
  have h2 := length_joinComma_cons p ps
  rw [h] at h2
  simp at h2
  omega

lemma renderField_eq_spec (kv : String × PyValue) :
    renderField kv = kv.1 ++ "=" ++ specFieldValue kv.2 := by
  obtain ⟨k, v⟩ := kv
  cases v with
  | none =>
      have hq : ("=\"" : String) = "=" ++ "\"" := by decide
      simp [renderField, specFieldValue, pyStr, hq, String.append_assoc]
  | bool b => cases b <;> simp [renderField, specFieldValue]
  | int n => simp [renderField, specFieldValue, String.append_assoc]
  | float r => simp [renderField, specFieldValue]
  | str s =>
      have hq : ("=\"" : String).data = ("=" : String).data ++ ("\"" : String).data := rfl
      apply String.ext
      simp [renderField, specFieldValue, pyStr, String.data_append, hq]

lemma tagStr_eq_specTagSection (tags : List (String × PyValue)) :
    (if joinComma ((tags.filter (fun kv => !isNoneV kv.2)).map
        (fun kv => kv.1 ++ "=" ++ pyStr kv.2)) = ""
     then ""
     else "," ++ joinComma ((tags.filter (fun kv => !isNoneV kv.2)).map
        (fun kv => kv.1 ++ "=" ++ pyStr kv.2))) = specTagSection tags := by
  unfold specTagSection
  cases hk : tags.filter (fun kv => !isNoneV kv.2) with
  | nil => simp [joinComma]
  | cons kv rest =>
      have hne : joinComma ((kv.1 ++ "=" ++ pyStr kv.2)
          :: rest.map (fun kv => kv.1 ++ "=" ++ pyStr kv.2)) ≠ "" := by
        apply joinComma_ne_empty
        intro h
        have hlen := congrArg String.length h
        rw [String.length_append, String.length_append] at hlen
        have h1 : ("=" : String).length = 1 := rfl
        have h2 : ("" : String).length = 0 := rfl
        omega
      simp [hne]

/-- **C1.** For any measurement, tag map, field map with at least one non-null
field and timestamp, `_format_line` returns exactly the line described by
§4.5 of the specification: `measurement[,tags] fields timestamp` with the tag
section (and its leading comma) omitted when no non-null tag is present,
booleans lowercase, integers suffixed `i`, floats bare, other values
double-quoted unescaped, and both sections comma-joined in insertion order
with null entries dropped. -/
theorem formatLine_eq_specLine (measurement : String)
    (tags fields : List (String × PyValue)) (ts_us : Int)
    (h : cleanFieldsOf fields ≠ []) :
    formatLine measurement tags fields ts_us
      = Option.some (specLine measurement tags fields ts_us) := by
  have hne : (cleanFieldsOf fields).isEmpty = false := by
    cases hc : cleanFieldsOf fields with
    | nil => exact absurd hc h
    | cons a l => simp
  have hmap : List.map renderField (cleanFieldsOf fields)
      = List.map (fun kv => kv.1 ++ "=" ++ specFieldValue kv.2) (cleanFieldsOf fields) :=
    List.map_congr_left (fun kv _ => renderField_eq_spec kv)
  simp only [formatLine, specLine, hne, Bool.false_eq_true, if_false, hmap,
    tagStr_eq_specTagSection]

/-- Witness for C1 at a concrete input exercising every rendering rule. -/
theorem formatLine_eq_specLine_witness :
    cleanFieldsOf [("A", PyValue.bool true), ("B", PyValue.int 3),
        ("C", PyValue.float "1.5"), ("D", PyValue.str "hi"),
        ("E", PyValue.none)] ≠ []
    ∧ formatLine "IMU" [("imu", PyValue.none), ("instanceTag", PyValue.int 0)]
        [("A", PyValue.bool true), ("B", PyValue.int 3),
         ("C", PyValue.float "1.5"), ("D", PyValue.str "hi"),
         ("E", PyValue.none)] 42
      = Option.some (specLine "IMU"
          [("imu", PyValue.none), ("instanceTag", PyValue.int 0)]
          [("A", PyValue.bool true), ("B", PyValue.int 3),
           ("C", PyValue.float "1.5"), ("D", PyValue.str "hi"),
           ("E", PyValue.none)] 42) :=
  ⟨by decide,
   formatLine_eq_specLine "IMU"
     [("imu", PyValue.none), ("instanceTag", PyValue.int 0)]
     [("A", PyValue.bool true), ("B", PyValue.int 3),
      ("C", PyValue.float "1.5"), ("D", PyValue.str "hi"),
      ("E", PyValue.none)] 42 (by decide)⟩

/-! The decoded record stream and the two generators.  The external decoder
(`pymavlink`'s `DFReader`) yields records in file order; a record is its
message type (`msg.get_type()`) together with its key→value map
(`msg.to_dict()`).  `timebase` stands for `reader.clock.timebase * 1000000`,
the file's epoch offset in microseconds. -/

/-- One decoded DataFlash record. -/
structure DFRecord where
  mtype : String
  data : List (String × PyValue)
deriving DecidableEq, Repr

/-- Lookup of a key in a Python dict embedded as an association list
(`k in data` / `data[k]`). -/
def dictFind (data : List (String × PyValue)) (k : String) : Option PyValue :=
  (data.find? (fun kv => kv.1 = k)).map Prod.snd

/-- Python `data.get(k)`: the stored value, or `None` when the key is absent. -/
def dictGet (data : List (String × PyValue)) (k : String) : PyValue :=
  match dictFind data k with
  | Option.some v => v
  | Option.none => PyValue.none

/-- Python `int(timebase + data["TimeUS"])` restricted to the values `DFReader`
produces: `TimeUS` is decoded from an unsigned integer format, so only the
`int` case occurs; a Python `bool` converts to 0/1. -/
def pyToInt : PyValue → Int
  | PyValue.int n => n
  | PyValue.bool b => if b then 1 else 0
  | _ => 0

/-- Lines 159–162 (and 189–192): the tag dict built for a record —
`{"imu": data.get("imu"), "instance": data.get("instance")}` when
`data.get("imu")` is truthy or `data.get("instance")` is not `None`,
otherwise empty. -/
def genTags (data : List (String × PyValue)) : List (String × PyValue) :=
  if pyTruthy (dictGet data "imu") || !isNoneV (dictGet data "instance") then
    [("imu", dictGet data "imu"), ("instance", dictGet data "instance")]
  else []

/-- The body of the `generate_lines` loop (lines 148–165) for one record:
skip (`continue`) when the `TimeUS` key is absent, otherwise format the whole
record dict with timestamp `timebase + TimeUS`. -/
def processRecord (timebase : Int) (r : DFRecord) : Option String :=
  match dictFind r.data "TimeUS" with
  | Option.none => Option.none
  | Option.some v =>
      formatLine r.mtype (genTags r.data) r.data (timebase + pyToInt v)

/-- The `if line: yield line` guard of `generate_lines`: only truthy lines are
yielded, i.e. neither `None` nor the empty string. -/
def yieldLine (timebase : Int) (r : DFRecord) : Option String :=
  match processRecord timebase r with
  | Option.some s => if s = "" then Option.none else Option.some s
  | Option.none => Option.none

/-- `generate_lines` over the whole decoded record sequence. -/
def generateLines (timebase : Int) (msgs : List DFRecord) : List String :=
  msgs.filterMap (yieldLine timebase)

/-- An InfluxDB `Point` as `_create_point` assembles it. -/
structure Point where
  measurement : String
  tags : List (String × String)
  fields : List (String × PyValue)
  time_us : Int
deriving DecidableEq, Repr

/-- The per-field coercion of `_create_point` (lines 122–130): `bool`, `int`
and `float` values are stored as they are, anything else through `str(v)`. -/
def coerceField : String × PyValue → String × PyValue
  | (k, PyValue.bool b) => (k, PyValue.bool b)
  | (k, PyValue.int n) => (k, PyValue.int n)
  | (k, PyValue.float r) => (k, PyValue.float r)
  | (k, v) => (k, PyValue.str (pyStr v))

/-- `_create_point` (lines 102–135): a `Point`, or `none` when no non-null
field remains.  The bucket name is added first as a `bucket` tag, then the
non-null tags with values through `str(v)`.  The `INFLUXDB_AVAILABLE` guard is
environment configuration, not data flow, and is not modelled. -/
def createPoint (measurement : String) (tags fields : List (String × PyValue))
    (ts_us : Int) (bucket_name : String) : Option Point :=
  let clean_fields := cleanFieldsOf fields
  if clean_fields.isEmpty then
    Option.none
  else
    Option.some
      { measurement := measurement
        tags := ("bucket", bucket_name)
          :: (tags.filter (fun kv => !isNoneV kv.2)).map (fun kv => (kv.1, pyStr kv.2))
        fields := clean_fields.map coerceField
        time_us := ts_us }

/-- The body of the `generate_points` loop (lines 178–195) for one record. -/
def processRecordPoint (timebase : Int) (bucket : String) (r : DFRecord) :
    Option Point :=
  match dictFind r.data "TimeUS" with
  | Option.none => Option.none
  | Option.some v =>
      createPoint r.mtype (genTags r.data) r.data (timebase + pyToInt v) bucket

/-- `generate_points` over the whole decoded record sequence; a `Point` object
is always truthy in Python, so `if line:` keeps every non-`None` point. -/
def generatePoints (timebase : Int) (bucket : String) (msgs : List DFRecord) :
    List Point :=
  msgs.filterMap (processRecordPoint timebase bucket)

lemma formatLine_eq_none_iff (m : String) (tags fields : List (String × PyValue))
    (ts : Int) :
    formatLine m tags fields ts = Option.none ↔ cleanFieldsOf fields = [] := by
  simp only [formatLine]
  cases hc : cleanFieldsOf fields with
  | nil => simp [hc]
  | cons a l => simp [hc]

lemma createPoint_eq_none_iff (m : String) (tags fields : List (String × PyValue))
    (ts : Int) (b : String) :
    createPoint m tags fields ts b = Option.none ↔ cleanFieldsOf fields = [] := by
  simp only [createPoint]
  cases hc : cleanFieldsOf fields with
  | nil => simp [hc]
  | cons a l => simp [hc]

lemma createPoint_some_eq (m : String) (tags fields : List (String × PyValue))
    (ts : Int) (b : String) (p : Point)
    (hp : createPoint m tags fields ts b = Option.some p) :
    p.fields = (cleanFieldsOf fields).map coerceField ∧ p.time_us = ts := by
  simp only [createPoint] at hp
  cases hc : cleanFieldsOf fields with
  | nil => rw [hc] at hp; simp at hp
  | cons a l =>
      rw [hc] at hp
      simp only [List.isEmpty_cons, Bool.false_eq_true, if_false,
        Option.some.injEq] at hp
      rw [← hp]
      refine ⟨?_, rfl⟩
      simp [hc]

lemma coerceField_fst (kv : String × PyValue) : (coerceField kv).1 = kv.1 := by
  obtain ⟨k, v⟩ := kv
  cases v <;> rfl

lemma formatLine_some_ne_empty (m : String) (tags fields : List (String × PyValue))
    (ts : Int) (s : String) (h : formatLine m tags fields ts = Option.some s) :
    s ≠ "" := by
  simp only [formatLine] at h
  cases hc : cleanFieldsOf fields with
  | nil => rw [hc] at h; simp at h
  | cons a l =>
      rw [hc] at h
      simp only [List.isEmpty_cons, Bool.false_eq_true, if_false,
        Option.some.injEq] at h
      intro he
      rw [he] at h
      have hlen := congrArg String.length h
      rw [String.length_append, String.length_append, String.length_append,
        String.length_append] at hlen
      have h1 : (" " : String).length = 1 := rfl
      have h2 : ("" : String).length = 0 := rfl
      omega

/-- **C2.** `_format_line` and `_create_point` drop null-valued fields and
return `None` exactly when the filtered field set is empty; otherwise the
constructed point's field set is the non-empty filtered set (primitives kept,
other values through `str`).  Consequently every point yielded by
`generate_points` has a non-empty field set, and every line yielded by
`generate_lines` comes from a record whose filtered field set is non-empty:
no empty point reaches a sink. -/
theorem no_empty_point_reaches_sink :
    (∀ m tags fields ts, formatLine m tags fields ts = Option.none
        ↔ cleanFieldsOf fields = [])
    ∧ (∀ m tags fields ts b, createPoint m tags fields ts b = Option.none
        ↔ cleanFieldsOf fields = [])
    ∧ (∀ m tags fields ts b p, createPoint m tags fields ts b = Option.some p
        → p.fields = (cleanFieldsOf fields).map coerceField ∧ p.fields ≠ [])
    ∧ (∀ tb b msgs p, p ∈ generatePoints tb b msgs → p.fields ≠ [])
    ∧ (∀ tb msgs s, s ∈ generateLines tb msgs
        → ∃ r ∈ msgs, processRecord tb r = Option.some s
            ∧ cleanFieldsOf r.data ≠ []) := by
  have hsome : ∀ m tags fields ts b p,
      createPoint m tags fields ts b = Option.some p
      → p.fields = (cleanFieldsOf fields).map coerceField ∧ p.fields ≠ [] := by
    intro m tags fields ts b p hp
    have heq := (createPoint_some_eq m tags fields ts b p hp).1
    refine ⟨heq, ?_⟩
    intro hnil
    rw [hnil] at heq
    have hfe : cleanFieldsOf fields = [] := by
      cases hc : cleanFieldsOf fields with
      | nil => rfl
      | cons a l => rw [hc] at heq; simp at heq
    rw [(createPoint_eq_none_iff m tags fields ts b).mpr hfe] at hp
    exact Option.noConfusion hp
  refine ⟨formatLine_eq_none_iff, createPoint_eq_none_iff, hsome, ?_, ?_⟩
  · intro tb b msgs p hp
    rcases List.mem_filterMap.mp hp with ⟨r, _, hr⟩
    simp only [processRecordPoint] at hr
    split at hr
    · exact Option.noConfusion hr
    · exact (hsome _ _ _ _ _ _ hr).2
  · intro tb msgs s hs
    rcases List.mem_filterMap.mp hs with ⟨r, hrm, hr⟩
    unfold yieldLine at hr
    split at hr
    case h_2 => exact Option.noConfusion hr
    case h_1 s0 hp =>
      split at hr
      · exact Option.noConfusion hr
      · have hss : s0 = s := Option.some.inj hr
        subst hss
        refine ⟨r, hrm, hp, ?_⟩
        intro hfe
        simp only [processRecord] at hp
        split at hp
        · exact Option.noConfusion hp
        · rw [(formatLine_eq_none_iff _ _ _ _).mpr hfe] at hp
          exact Option.noConfusion hp

/-- Witness for C2: the implication parts evaluated at concrete inputs. -/
theorem no_empty_point_reaches_sink_witness :
    (formatLine "BAT" [] [("Volt", PyValue.none)] 7 = Option.none
      ↔ cleanFieldsOf [("Volt", PyValue.none)] = [])
    ∧ (∀ p, p ∈ generatePoints 0 "b"
          [⟨"BAT", [("TimeUS", PyValue.int 4), ("Volt", PyValue.float "12.1")]⟩]
        → p.fields ≠ []) :=
  ⟨no_empty_point_reaches_sink.1 "BAT" [] [("Volt", PyValue.none)] 7,
   fun p hp => no_empty_point_reaches_sink.2.2.2.1 0 "b"
     [⟨"BAT", [("TimeUS", PyValue.int 4), ("Volt", PyValue.float "12.1")]⟩] p hp⟩

/-- The field list of an optional point (empty for `none`). -/
def pointFieldsOf : Option Point → List (String × PyValue)
  | Option.some p => p.fields
  | Option.none => []

/-- The text of an optional line (empty for `none`). -/
def lineStrOf : Option String → String
  | Option.some s => s
  | Option.none => ""

/-- **C3.** A record lacking the `TimeUS` key is skipped by both generators —
no line and no point is produced, and (the embedding being total) no error is
raised — while an emitted point's timestamp is `timebase + TimeUS`: the file's
epoch offset in microseconds plus the record's elapsed time. -/
theorem timestamp_is_timebase_plus_elapsed :
    (∀ tb b r, dictFind r.data "TimeUS" = Option.none
        → processRecord tb r = Option.none
          ∧ processRecordPoint tb b r = Option.none)
    ∧ (∀ tb b r t p, dictFind r.data "TimeUS" = Option.some (PyValue.int t)
        → processRecordPoint tb b r = Option.some p
        → p.time_us = tb + t) := by
  constructor
  · intro tb b r hf
    exact ⟨by simp [processRecord, hf], by simp [processRecordPoint, hf]⟩
  · intro tb b r t p hf hp
    simp only [processRecordPoint, hf] at hp
    have ht := (createPoint_some_eq _ _ _ _ _ _ hp).2
    simpa [pyToInt] using ht

/-- Witness for C3 at concrete records, one without and one with `TimeUS`. -/
theorem timestamp_is_timebase_plus_elapsed_witness :
    (processRecord 7 ⟨"FMT", [("Type", PyValue.int 1)]⟩ = Option.none
      ∧ processRecordPoint 7 "b" ⟨"FMT", [("Type", PyValue.int 1)]⟩ = Option.none)
    ∧ Point.time_us ⟨"IMU", [("bucket", "b")],
        [("TimeUS", PyValue.int 10), ("AccX", PyValue.float "0.25")], 110⟩
      = 100 + 10 :=
  ⟨timestamp_is_timebase_plus_elapsed.1 7 "b" ⟨"FMT", [("Type", PyValue.int 1)]⟩
     (by decide),
   timestamp_is_timebase_plus_elapsed.2 100 "b"
     ⟨"IMU", [("TimeUS", PyValue.int 10), ("AccX", PyValue.float "0.25")]⟩ 10
     ⟨"IMU", [("bucket", "b")],
       [("TimeUS", PyValue.int 10), ("AccX", PyValue.float "0.25")], 110⟩
     (by decide) (by decide)⟩

/-- **C10.** A record whose dict contains the `TimeUS` key — decoded by
`DFReader` as an integer — passes its entire dict as the field map, so the
constructed point retains `TimeUS` as an integer field; the empty-field branch
of `_create_point`/`_format_line` is unreachable for records surviving the
`TimeUS` filter, and the emitted line is non-empty. -/
theorem timeUS_field_retained (tb : Int) (b : String) (r : DFRecord) (t : Int)
    (hfind : dictFind r.data "TimeUS" = Option.some (PyValue.int t)) :
    ("TimeUS", PyValue.int t) ∈ pointFieldsOf (processRecordPoint tb b r)
    ∧ pointFieldsOf (processRecordPoint tb b r) ≠ []
    ∧ processRecordPoint tb b r ≠ Option.none
    ∧ processRecord tb r ≠ Option.none
    ∧ lineStrOf (processRecord tb r) ≠ "" := by
  obtain ⟨kv0, hkv0, hsnd⟩ : ∃ kv0, r.data.find? (fun kv => kv.1 = "TimeUS")
      = Option.some kv0 ∧ kv0.2 = PyValue.int t := by
    unfold dictFind at hfind
    cases hf : r.data.find? (fun kv => kv.1 = "TimeUS") with
    | none => rw [hf] at hfind; simp at hfind
    | some kv1 =>
        rw [hf] at hfind
        simp at hfind
        exact ⟨kv1, rfl, hfind⟩
  have hfst : kv0.1 = "TimeUS" := by simpa using List.find?_some hkv0
  have hmem : ("TimeUS", PyValue.int t) ∈ r.data := by
    have hm := List.mem_of_find?_eq_some hkv0
    have hkv : kv0 = ("TimeUS", PyValue.int t) := Prod.ext hfst hsnd
    rwa [hkv] at hm
  have hclean : ("TimeUS", PyValue.int t) ∈ cleanFieldsOf r.data :=
    List.mem_filter.mpr ⟨hmem, by simp [isNoneV]⟩
  have hne : cleanFieldsOf r.data ≠ [] := List.ne_nil_of_mem hclean
  obtain ⟨p, hp⟩ : ∃ p, createPoint r.mtype (genTags r.data) r.data
      (tb + pyToInt (PyValue.int t)) b = Option.some p := by
    cases hcp : createPoint r.mtype (genTags r.data) r.data
        (tb + pyToInt (PyValue.int t)) b with
    | none => exact absurd ((createPoint_eq_none_iff _ _ _ _ _).mp hcp) hne
    | some p => exact ⟨p, rfl⟩
  have hpr : processRecordPoint tb b r = Option.some p := by
    simp [processRecordPoint, hfind, hp]
  obtain ⟨s, hs⟩ : ∃ s, formatLine r.mtype (genTags r.data) r.data
      (tb + pyToInt (PyValue.int t)) = Option.some s := by
    cases hfl : formatLine r.mtype (genTags r.data) r.data
        (tb + pyToInt (PyValue.int t)) with
    | none => exact absurd ((formatLine_eq_none_iff _ _ _ _).mp hfl) hne
    | some s => exact ⟨s, rfl⟩
  have hprl : processRecord tb r = Option.some s := by
    simp [processRecord, hfind, hs]
  have hfields := (createPoint_some_eq _ _ _ _ _ _ hp).1
  refine ⟨?_, ?_, ?_, ?_, ?_⟩
  · rw [hpr]
    show ("TimeUS", PyValue.int t) ∈ p.fields
    rw [hfields]
    have hco : coerceField ("TimeUS", PyValue.int t) = ("TimeUS", PyValue.int t) := rfl
    exact hco ▸ List.mem_map_of_mem coerceField hclean
  · rw [hpr]
    show p.fields ≠ []
    rw [hfields]
    simp [hne]
  · rw [hpr]
    simp
  · rw [hprl]
    simp
  · rw [hprl]
    exact formatLine_some_ne_empty _ _ _ _ _ hs

/-- Witness for C10 at a concrete record. -/
theorem timeUS_field_retained_witness :
    ("TimeUS", PyValue.int 10) ∈ pointFieldsOf (processRecordPoint 100 "mybucket"
        ⟨"IMU", [("TimeUS", PyValue.int 10), ("AccX", PyValue.float "0.25")]⟩)
    ∧ pointFieldsOf (processRecordPoint 100 "mybucket"
        ⟨"IMU", [("TimeUS", PyValue.int 10), ("AccX", PyValue.float "0.25")]⟩) ≠ []
    ∧ processRecordPoint 100 "mybucket"
        ⟨"IMU", [("TimeUS", PyValue.int 10), ("AccX", PyValue.float "0.25")]⟩
        ≠ Option.none
    ∧ processRecord 100
        ⟨"IMU", [("TimeUS", PyValue.int 10), ("AccX", PyValue.float "0.25")]⟩
        ≠ Option.none
    ∧ lineStrOf (processRecord 100
        ⟨"IMU", [("TimeUS", PyValue.int 10), ("AccX", PyValue.float "0.25")]⟩) ≠ "" :=
  timeUS_field_retained 100 "mybucket"
    ⟨"IMU", [("TimeUS", PyValue.int 10), ("AccX", PyValue.float "0.25")]⟩ 10
    (by decide)

/-- The timestamp `timebase + TimeUS` a record would be assigned. -/
def recordTimestamp (tb : Int) (r : DFRecord) : Int :=
  tb + pyToInt (dictGet r.data "TimeUS")

/-- **C4, counterexample.** The timestamps of the yielded points are *not*
monotonically non-decreasing for every input: a decoded record sequence whose
`TimeUS` values decrease (nothing in the code prevents this) yields points
with decreasing timestamps. -/
theorem generatePoints_not_monotone_cex :
    ((generatePoints 0 "b"
        [⟨"IMU", [("TimeUS", PyValue.int 5)]⟩,
         ⟨"IMU", [("TimeUS", PyValue.int 3)]⟩]).map Point.time_us = [5, 3])
    ∧ ¬ List.Pairwise (fun a b : Int => a ≤ b)
        ((generatePoints 0 "b"
          [⟨"IMU", [("TimeUS", PyValue.int 5)]⟩,
           ⟨"IMU", [("TimeUS", PyValue.int 3)]⟩]).map Point.time_us) := by
  constructor
  · decide
  · decide

/-- **C4, amended.** Both generators preserve decode order with no reordering:
the emitted point timestamps form an in-order subsequence of the per-record
timestamps `timebase + TimeUS`, and the emitted lines form an in-order
subsequence of the per-record formatted lines; consequently, whenever the
decoded records' timestamps are non-decreasing in decode order, so are the
timestamps of the yielded points. -/
theorem generatePoints_order_preserved (tb : Int) (b : String)
    (msgs : List DFRecord) :
    ((generatePoints tb b msgs).map Point.time_us).Sublist
        (msgs.map (recordTimestamp tb))
    ∧ (generateLines tb msgs).Sublist (msgs.filterMap (processRecord tb))
    ∧ (List.Pairwise (fun x y : Int => x ≤ y) (msgs.map (recordTimestamp tb))
        → List.Pairwise (fun x y : Int => x ≤ y)
            ((generatePoints tb b msgs).map Point.time_us)) := by
  have hsub : ∀ l : List DFRecord,
      ((generatePoints tb b l).map Point.time_us).Sublist
        (l.map (recordTimestamp tb)) := by
    intro l
    induction l with
    | nil => simp [generatePoints]
    | cons r rest ih =>
        cases hp : processRecordPoint tb b r with
        | none =>
            have h1 : generatePoints tb b (r :: rest) = generatePoints tb b rest := by
              simp [generatePoints, List.filterMap_cons, hp]
            rw [h1, List.map_cons]
            exact ih.cons _
        | some p =>
            have h1 : generatePoints tb b (r :: rest)
                = p :: generatePoints tb b rest := by
              simp [generatePoints, List.filterMap_cons, hp]
            have ht : p.time_us = recordTimestamp tb r := by
              simp only [processRecordPoint] at hp
              split at hp
              · exact Option.noConfusion hp
              · next v hv =>
                  have h2 := (createPoint_some_eq _ _ _ _ _ _ hp).2
                  rw [h2]
                  simp [recordTimestamp, dictGet, hv]
            rw [h1, List.map_cons, List.map_cons, ht]
            exact ih.cons₂ _
  have hlines : ∀ l : List DFRecord,
      (generateLines tb l).Sublist (l.filterMap (processRecord tb)) := by
    intro l
    induction l with
    | nil => simp [generateLines]
    | cons r rest ih =>
        cases hp : processRecord tb r with
        | none =>
            have h1 : generateLines tb (r :: rest) = generateLines tb rest := by
              simp [generateLines, List.filterMap_cons, yieldLine, hp]
            have h2 : (r :: rest).filterMap (processRecord tb)
                = rest.filterMap (processRecord tb) := by
              simp [List.filterMap_cons, hp]
            rw [h1, h2]
            exact ih
        | some s =>
            have h2 : (r :: rest).filterMap (processRecord tb)
                = s :: rest.filterMap (processRecord tb) := by
              simp [List.filterMap_cons, hp]
            by_cases he : s = ""
            · have h1 : generateLines tb (r :: rest) = generateLines tb rest := by
                simp [generateLines, List.filterMap_cons, yieldLine, hp, he]
              rw [h1, h2]
              exact ih.cons _
            · have h1 : generateLines tb (r :: rest)
                  = s :: generateLines tb rest := by
                simp [generateLines, List.filterMap_cons, yieldLine, hp, he]
              rw [h1, h2]
              exact ih.cons₂ _
  exact ⟨hsub msgs, hlines msgs,
    fun hmono => List.Pairwise.sublist (hsub msgs) hmono⟩

/-- Witness for C4's amended statement on a concrete monotone record list. -/
theorem generatePoints_order_preserved_witness :
    List.Pairwise (fun x y : Int => x ≤ y)
      ((generatePoints 0 "b"
        [⟨"IMU", [("TimeUS", PyValue.int 3)]⟩,
         ⟨"IMU", [("TimeUS", PyValue.int 5)]⟩]).map Point.time_us) :=
  (generatePoints_order_preserved 0 "b"
    [⟨"IMU", [("TimeUS", PyValue.int 3)]⟩,
     ⟨"IMU", [("TimeUS", PyValue.int 5)]⟩]).2.2 (by decide)

/-! Bucket naming (`_hebrew_to_english`, `_generate_bucket_name`) and the
field mapper of the analysis tool (`map_field_name`). -/

/-- A file path, embedded structurally: the names of the directories from the
root down to the file's parent (`dirs`, outermost first) and the file's base
name without extension (`stem`).  `pathlib`'s `.parent` walk consumes `dirs`
from the right and stops at the filesystem root (`current == current.parent`,
also `.` for a bare relative path), i.e. when `dirs` is exhausted. -/
structure FPath where
  dirs : List String
  stem : String
deriving DecidableEq, Repr

/-- The check on line 41: `'֐' <= char <= '׿'`. -/
def isHebrewChar (c : Char) : Bool :=
  0x0590 ≤ c.toNat && c.toNat ≤ 0x05FF

/-- `any(... for char in text)` over the string. -/
def containsHebrew (text : String) : Bool :=
  text.toList.any isHebrewChar

/-- `_hebrew_to_english` (lines 37–51).  The external Google translator is an
oracle parameter: `some t` models a successful call returning `t`, `none`
models any failure (timeout, service error, exception), in which case the
`except` branch falls back to the original text.  Non-Hebrew text is returned
as-is without consulting the translator. -/
def hebrewToEnglish (oracle : String → Option String) (text : String) : String :=
  if containsHebrew text then
    match oracle text with
    | Option.some t => t
    | Option.none => text
  else text

/-- Python `str.isalnum`, per character, restricted to the code points this
program exercises: ASCII letters and digits, plus the Hebrew letters
U+05D0–U+05EA (Unicode category Lo, hence alphanumeric for Python's
Unicode-aware `isalnum`). -/
def pyIsAlnum (c : Char) : Bool :=
  c.isAlphanum || (0x05D0 ≤ c.toNat && c.toNat ≤ 0x05EA)

/-- One character of the sanitization comprehension on line 76:
`c if c.isalnum() or c in "-_" else "_"`. -/
def sanitizeChar (c : Char) : Char :=
  if pyIsAlnum c || c = '-' || c = '_' then c else '_'

/-- Python `"_".join(l)`. -/
def joinUnderscore : List String → String
  | [] => ""
  | [s] => s
  | s :: rest => s ++ "_" ++ joinUnderscore rest

/-- The `parts` list of `_generate_bucket_name` (lines 56–68): up to the last
three directory names, collected walking up from the file's parent and
stopping at the root; when none were collected, the file's stem. -/
def partsOf (p : FPath) : List String :=
  let parts := (p.dirs.reverse.take 3).reverse
  if parts.isEmpty then [p.stem] else parts

/-- `_generate_bucket_name` (lines 54–78): translate the collected components,
join with underscores, append the (untranslated) stem, sanitize — keep
Python-alphanumeric characters and `-`/`_`, replace everything else by `_` —
then lower-case, falling back to `"default_bucket"` when the result is empty.
Python applies `.lower()` to the sanitized string; on the characters the
sanitizer keeps it acts per character as `Char.toLower` (ASCII case mapping;
Hebrew letters have no case). -/
def generateBucketName (oracle : String → Option String) (p : FPath) : String :=
  let translated := (partsOf p).map (hebrewToEnglish oracle)
  let bucket_name := joinUnderscore translated ++ "_" ++ p.stem
  let sanitized := String.mk ((bucket_name.toList.map sanitizeChar).map Char.toLower)
  if sanitized = "" then "default_bucket" else sanitized

/-- `map_field_name` from `data-analytics/polaris.py` (lines 58–68): identity,
except that `VIBE`'s generic `Clip` field with a present instance value maps
to `f"Clip{instance}"`. -/
def mapFieldName (message_type field : String) (inst : Option Int) : String :=
  match inst with
  | Option.some i =>
      if message_type = "VIBE" && field = "Clip" then "Clip" ++ toString i
      else field
  | Option.none => field

/-- **C9.** `map_field_name` is the identity except for message type `VIBE`,
field `Clip`, and a present instance value, where it returns `Clip` suffixed
with the instance index; in particular `map_field_name("VIBE","Clip",1)` is
`"Clip1"`. -/
theorem mapFieldName_identity_except_vibe_clip :
    (∀ mt f i, ¬(mt = "VIBE" ∧ f = "Clip" ∧ i ≠ Option.none)
        → mapFieldName mt f i = f)
    ∧ (∀ n : Int, mapFieldName "VIBE" "Clip" (Option.some n) = "Clip" ++ toString n)
    ∧ mapFieldName "VIBE" "Clip" (Option.some 1) = "Clip1" := by
  refine ⟨?_, ?_, by decide⟩
  · intro mt f i h
    match i with
    | Option.none => rfl
    | Option.some n =>
        simp only [mapFieldName]
        by_cases h1 : mt = "VIBE"
        · by_cases h2 : f = "Clip"
          · exact absurd ⟨h1, h2, by simp⟩ h
          · simp [h1, h2]
        · simp [h1]
  · intro n
    simp [mapFieldName]

/-- Witness for C9 on a non-`VIBE` check and a `VIBE`/`Clip` check. -/
theorem mapFieldName_identity_except_vibe_clip_witness :
    mapFieldName "GPS" "Spd" (Option.some 2) = "Spd"
    ∧ mapFieldName "VIBE" "Clip" (Option.some 3) = "Clip" ++ toString (3 : Int) :=
  ⟨mapFieldName_identity_except_vibe_clip.1 "GPS" "Spd" (Option.some 2) (by decide),
   mapFieldName_identity_except_vibe_clip.2.1 3⟩

/-- A character of the claimed `[a-z0-9_-]` class. -/
def bucketNameCharStrict (c : Char) : Bool :=
  c.isLower || c.isDigit || c = '_' || c = '-'

/-- The BucketName invariant claimed in §3 of the specification: non-empty and
matching `[a-z0-9_-]+`. -/
def matchesBucketPattern (s : String) : Bool :=
  s ≠ "" && s.toList.all bucketNameCharStrict

/-- **C6, counterexample.** The stem is appended untranslated and Python's
Unicode-aware `isalnum` keeps Hebrew letters, so a Hebrew stem survives
sanitization and the resulting bucket name does not match `[a-z0-9_-]+`. -/
theorem generateBucketName_pattern_cex :
    generateBucketName (fun _ => Option.none) ⟨["logs"], "דג"⟩ = "logs_דג"
    ∧ matchesBucketPattern "logs_דג" = false := ⟨by decide, by decide⟩

/-- A character admissible in a sanitized, lower-cased bucket name: Python
alphanumeric, `-`, or `_`, and not an ASCII uppercase letter. -/
def bucketCharOK (c : Char) : Bool :=
  (pyIsAlnum c || c = '-' || c = '_') && !(65 ≤ c.toNat && c.toNat ≤ 90)

lemma bucketCharOK_toLower_sanitize (c : Char) :
    bucketCharOK (Char.toLower (sanitizeChar c)) = true := by
  have key : ∀ m : Fin 26, bucketCharOK (Char.ofNat (m.val + 97)) = true := by decide
  by_cases h : (pyIsAlnum c || c = '-' || c = '_') = true
  · have hs : sanitizeChar c = c := by simp [sanitizeChar, h]
    rw [hs]
    simp only [Char.toLower]
    split
    · next hu =>
        have hm : c.toNat + 32 = (c.toNat - 65) + 97 := by omega
        rw [hm]
        exact key ⟨c.toNat - 65, by omega⟩
    · next hu =>
        simp only [bucketCharOK, h, Bool.true_and]
        simp only [Bool.not_eq_eq_eq_not, Bool.not_true, Bool.and_eq_false_imp,
          decide_eq_true_eq, decide_eq_false_iff_not]
        intro h65
        intro h90
        exact hu ⟨h65, h90⟩
  · have hs : sanitizeChar c = '_' := by
      simp only [sanitizeChar]
      rw [if_neg]
      simp only [h]
      exact fun hx => absurd hx (by simp [h])
    rw [hs]
    decide

/-- **C6, amended.** For every path and translator behavior, the bucket name
is non-empty, and every character of it is Python-alphanumeric, `-`, or `_`,
and not an ASCII uppercase letter (every character outside the kept class is
replaced by `_` and the result lower-cased).  The claim's stricter
`[a-z0-9_-]+` fails because Python's `isalnum` also keeps non-ASCII letters —
see the counterexample; an empty sanitized result falls back to the fixed
`"default_bucket"`. -/
theorem generateBucketName_sanitized (oracle : String → Option String)
    (p : FPath) :
    generateBucketName oracle p ≠ ""
    ∧ (generateBucketName oracle p).toList.all bucketCharOK = true := by
  simp only [generateBucketName]
  split
  · exact ⟨by decide, by decide⟩
  · next hne =>
      refine ⟨hne, ?_⟩
      rw [List.map_map]
      have hlist : (String.mk ((joinUnderscore ((partsOf p).map (hebrewToEnglish oracle))
          ++ "_" ++ p.stem).toList.map (Char.toLower ∘ sanitizeChar))).toList
          = (joinUnderscore ((partsOf p).map (hebrewToEnglish oracle))
          ++ "_" ++ p.stem).toList.map (Char.toLower ∘ sanitizeChar) := rfl
      rw [hlist, List.all_map]
      apply List.all_eq_true.mpr
      intro c _
      exact bucketCharOK_toLower_sanitize c

lemma hebrewToEnglish_failing (comp : String) :
    hebrewToEnglish (fun _ => Option.none) comp = comp := by
  by_cases hc : containsHebrew comp <;> simp [hebrewToEnglish, hc]

lemma hebrewToEnglish_id_oracle (comp : String) :
    hebrewToEnglish (fun t => Option.some t) comp = comp := by
  by_cases hc : containsHebrew comp <;> simp [hebrewToEnglish, hc]

lemma hebrewToEnglish_nonHebrew (oracle : String → Option String) (comp : String)
    (h : containsHebrew comp = false) : hebrewToEnglish oracle comp = comp := by
  simp [hebrewToEnglish, h]

/-- **C7, counterexample.** Bucket naming is *not* independent of the
translation collaborator's behavior: for a path with a Hebrew directory
component, a successful translation and a failed one (which falls back to the
untranslated component, whose Hebrew letters survive Python's `isalnum`
sanitization) produce different bucket names. -/
theorem generateBucketName_translation_dependent_cex :
    generateBucketName (fun _ => Option.some "shalom") ⟨["שלום"], "f"⟩
        = "shalom_f"
    ∧ generateBucketName (fun _ => Option.none) ⟨["שלום"], "f"⟩ = "שלום_f"
    ∧ generateBucketName (fun _ => Option.some "shalom") ⟨["שלום"], "f"⟩
        ≠ generateBucketName (fun _ => Option.none) ⟨["שלום"], "f"⟩ :=
  ⟨by decide, by decide, by decide⟩

/-- **C7, amended.** Translation failure never aborts bucket naming: a failing
translator behaves exactly like the identity translator, each failed component
falling back to its original text; and bucket naming is deterministic across
arbitrary translator behaviors whenever no collected component contains Hebrew
characters (the translator is then never consulted).  When a component does
contain Hebrew characters, differing translation outcomes can change the name
— see the counterexample. -/
theorem generateBucketName_failure_fallback (p : FPath)
    (o1 o2 : String → Option String) :
    generateBucketName (fun _ => Option.none) p
        = generateBucketName (fun t => Option.some t) p
    ∧ ((partsOf p).all (fun comp => !containsHebrew comp) = true
        → generateBucketName o1 p = generateBucketName o2 p) := by
  constructor
  · have hm : (partsOf p).map (hebrewToEnglish (fun _ => Option.none))
        = (partsOf p).map (hebrewToEnglish (fun t => Option.some t)) := by
      apply List.map_congr_left
      intro comp _
      rw [hebrewToEnglish_failing, hebrewToEnglish_id_oracle]
    simp only [generateBucketName, hm]
  · intro hall
    have hm : (partsOf p).map (hebrewToEnglish o1)
        = (partsOf p).map (hebrewToEnglish o2) := by
      apply List.map_congr_left
      intro comp hcomp
      have hc : containsHebrew comp = false := by
        have := List.all_eq_true.mp hall comp hcomp
        simpa using this
      rw [hebrewToEnglish_nonHebrew o1 comp hc,
        hebrewToEnglish_nonHebrew o2 comp hc]
    simp only [generateBucketName, hm]

/-- Witness for C7's amended statement on a concrete ASCII path, with two
arbitrary different oracle behaviors. -/
theorem generateBucketName_failure_fallback_witness :
    generateBucketName (fun _ => Option.none) ⟨["flights"], "log1"⟩
        = generateBucketName (fun t => Option.some t) ⟨["flights"], "log1"⟩
    ∧ generateBucketName (fun _ => Option.some "x") ⟨["flights"], "log1"⟩
        = generateBucketName (fun _ => Option.none) ⟨["flights"], "log1"⟩ :=
  ⟨(generateBucketName_failure_fallback ⟨["flights"], "log1"⟩
      (fun _ => Option.none) (fun _ => Option.none)).1,
   (generateBucketName_failure_fallback ⟨["flights"], "log1"⟩
      (fun _ => Option.some "x") (fun _ => Option.none)).2 (by decide)⟩

/-- **C8, counterexample.** With exactly one ancestor directory — fewer than
three — `_generate_bucket_name` does *not* fall back to the stem as sole
component: it uses the ancestors it found (`"use what we have"`), and the stem
only as the usual suffix. -/
theorem partsOf_single_ancestor_cex :
    partsOf ⟨["a"], "flight"⟩ = ["a"]
    ∧ partsOf ⟨["a"], "flight"⟩ ≠ ["flight"]
    ∧ generateBucketName (fun _ => Option.none) ⟨["a"], "flight"⟩ = "a_flight" :=
  ⟨by decide, by decide, by decide⟩

/-- **C8, amended.** `_generate_bucket_name` collects up to three ancestor
directory names walking up from the file's parent (the last `min 3 n` of the
`n` ancestors, kept in root-to-leaf order as a suffix of the directory list),
and falls back to the file's stem as the sole component only when *no*
ancestor directory exists at all. -/
theorem partsOf_collects_up_to_three (p : FPath) :
    (p.dirs = [] → partsOf p = [p.stem])
    ∧ (p.dirs ≠ [] → (partsOf p).length = min 3 p.dirs.length
        ∧ ∃ rest, p.dirs = rest ++ partsOf p) := by
  constructor
  · intro h
    simp [partsOf, h]
  · intro h
    have hne : p.dirs.reverse ≠ [] := by simpa using h
    have htake : p.dirs.reverse.take 3 ≠ [] := by
      cases hr : p.dirs.reverse with
      | nil => exact absurd hr hne
      | cons a l => simp [hr]
    have hrev : ((p.dirs.reverse.take 3).reverse).isEmpty = false := by
      cases ht : p.dirs.reverse.take 3 with
      | nil => exact absurd ht htake
      | cons a l => simp [ht]
    have hparts : partsOf p = (p.dirs.reverse.take 3).reverse := by
      simp only [partsOf, hrev, Bool.false_eq_true, if_false]
    constructor
    · rw [hparts]
      simp [List.length_reverse, List.length_take]
    · refine ⟨(p.dirs.reverse.drop 3).reverse, ?_⟩
      rw [hparts]
      conv_rhs => rw [← List.reverse_append]
      rw [List.take_append_drop, List.reverse_reverse]

/-- Witness for C8's amended statement: a bare file with no ancestors, and a
path with four ancestors keeping the innermost three. -/
theorem partsOf_collects_up_to_three_witness :
    partsOf ⟨[], "solo"⟩ = ["solo"]
    ∧ ((partsOf ⟨["w", "a", "b", "c"], "f"⟩).length
          = min 3 (FPath.dirs ⟨["w", "a", "b", "c"], "f"⟩).length
        ∧ ∃ rest, FPath.dirs ⟨["w", "a", "b", "c"], "f"⟩
            = rest ++ partsOf ⟨["w", "a", "b", "c"], "f"⟩) :=
  ⟨(partsOf_collects_up_to_three ⟨[], "solo"⟩).1 rfl,
   (partsOf_collects_up_to_three ⟨["w", "a", "b", "c"], "f"⟩).2 (by decide)⟩

/-! The `main` driver (lines 299–368 of `scripts/dataflash_to_influx.py`).
CLI parsing, file discovery and per-file processing touch the filesystem and
network, so they enter the embedding as an environment: the discovery result
(`find_bin_files` either raises or returns the sorted file list) and each
file's processing outcome (`process_file_to_influx` / `process_file_to_file`
either raises or returns).  The per-file `except` clause logs and continues,
so a run's observable outcome is its exit code, the ordered list of attempted
files with their success flags, and the final completion message. -/

/-- The parsed CLI arguments `main` inspects (`argparse` defaults are `None`). -/
structure Args where
  influx_url : Option String
  influx_token : Option String
  output_dir : Option String

/-- The environment of one `main` run. -/
structure MainEnv where
  influxAvailable : Bool
  findBin : Except String (List String)
  processFile : String → Except String Unit

/-- Python truthiness of an optional string flag (`not args.influx_token`):
`None` and the empty string are falsy. -/
def optTruthy : Option String → Bool
  | Option.some s => s ≠ ""
  | Option.none => false

/-- Did a per-file processing attempt succeed? -/
def isOkE : Except String Unit → Bool
  | Except.ok _ => true
  | Except.error _ => false

/-- The observable outcome of a `main` run. -/
structure RunResult where
  exit : Int
  processed : List (String × Bool)
  summary : Option String
deriving DecidableEq, Repr

/-- `main` (lines 299–368): `use_influx = args.influx_url is not None`; exit 1
on a missing token in influx mode, on an unavailable influx client, on a
missing output dir in file mode, on a discovery exception, or on an empty
discovery result, all before any file is processed; otherwise every discovered
file is attempted in order — a per-file exception is caught, logged and
processing continues — and the run prints `"Completed processing N file(s)"`
and exits 0. -/
def mainRun (args : Args) (env : MainEnv) : RunResult :=
  let use_influx := args.influx_url.isSome
  if use_influx && !optTruthy args.influx_token then
    ⟨1, [], Option.none⟩
  else if use_influx && !env.influxAvailable then
    ⟨1, [], Option.none⟩
  else if !use_influx && !optTruthy args.output_dir then
    ⟨1, [], Option.none⟩
  else
    match env.findBin with
    | Except.error _ => ⟨1, [], Option.none⟩
    | Except.ok bin_files =>
        if bin_files.isEmpty then
          ⟨1, [], Option.none⟩
        else
          ⟨0, bin_files.map (fun f => (f, isOkE (env.processFile f))),
            Option.some ("Completed processing "
              ++ toString bin_files.length ++ " file(s)")⟩

/-- **C5, counterexample.** In a run over two files of which exactly one
fails, the run does exit 0, but the final summary line is exactly
`"Completed processing 2 file(s)"`: it contains no character `1`, so it cannot
report `1 failed / 1 succeeded` — `main` keeps no success/failure counters and
reports only the total file count. -/
theorem mainRun_summary_no_counts_cex :
    (mainRun ⟨Option.none, Option.none, Option.some "out"⟩
        ⟨false, Except.ok ["a.bin", "b.bin"],
          fun f => if f = "a.bin" then Except.error "decode" else Except.ok ()⟩)
      = ⟨0, [("a.bin", false), ("b.bin", true)],
          Option.some "Completed processing 2 file(s)"⟩
    ∧ ('1' ∈ "Completed processing 2 file(s)".toList → False) :=
  ⟨by decide, by decide⟩

/-- **C5, amended.** A per-file failure never aborts the run: whenever the
configuration is accepted and discovery returns a non-empty file list, every
file is attempted in order regardless of individual failures, the run exits 0,
and the final summary reports the *total* number of files (not the
success/failure split); each configuration error — `--influx-url` without a
truthy `--influx-token`, neither `--influx-url` nor a truthy `--output-dir`,
or an empty discovery result — exits 1 with no file processed. -/
theorem mainRun_error_isolation :
    (∀ args env files,
        (args.influx_url.isSome = true
          → optTruthy args.influx_token = true ∧ env.influxAvailable = true)
        → (args.influx_url = Option.none → optTruthy args.output_dir = true)
        → env.findBin = Except.ok files
        → files ≠ []
        → (mainRun args env).exit = 0
          ∧ (mainRun args env).processed
              = files.map (fun f => (f, isOkE (env.processFile f)))
          ∧ (mainRun args env).summary
              = Option.some ("Completed processing "
                  ++ toString files.length ++ " file(s)"))
    ∧ (∀ args env, args.influx_url.isSome = true
        → optTruthy args.influx_token = false
        → mainRun args env = ⟨1, [], Option.none⟩)
    ∧ (∀ args env, args.influx_url = Option.none
        → optTruthy args.output_dir = false
        → mainRun args env = ⟨1, [], Option.none⟩)
    ∧ (∀ args env,
        (args.influx_url.isSome = true
          → optTruthy args.influx_token = true ∧ env.influxAvailable = true)
        → (args.influx_url = Option.none → optTruthy args.output_dir = true)
        → env.findBin = Except.ok []
        → mainRun args env = ⟨1, [], Option.none⟩) := by
  refine ⟨?_, ?_, ?_, ?_⟩
  · intro args env files h1 h2 hfind hne
    have hfe : files.isEmpty = false := by
      cases files with
      | nil => exact absurd rfl hne
      | cons a l => simp
    cases hurl : args.influx_url with
    | some u =>
        obtain ⟨ht, ha⟩ := h1 (by simp [hurl])
        simp [mainRun, hurl, ht, ha, hfind, hfe]
    | none =>
        have ho := h2 hurl
        simp [mainRun, hurl, ho, hfind, hfe]
  · intro args env hu hnt
    cases hurl : args.influx_url with
    | none => rw [hurl] at hu; simp at hu
    | some u => simp [mainRun, hurl, hnt]
  · intro args env hurl hno
    simp [mainRun, hurl, hno]
  · intro args env h1 h2 hfind
    cases hurl : args.influx_url with
    | some u =>
        obtain ⟨ht, ha⟩ := h1 (by simp [hurl])
        simp [mainRun, hurl, ht, ha, hfind]
    | none =>
        have ho := h2 hurl
        simp [mainRun, hurl, ho, hfind]

/-- Witness for C5's amended statement: a successful file-mode run, the three
configuration errors. -/
theorem mainRun_error_isolation_witness :
    (mainRun ⟨Option.none, Option.none, Option.some "out"⟩
        ⟨true, Except.ok ["a.bin"], fun _ => Except.ok ()⟩).exit = 0
    ∧ mainRun ⟨Option.some "http://x", Option.none, Option.none⟩
        ⟨true, Except.ok [], fun _ => Except.ok ()⟩ = ⟨1, [], Option.none⟩
    ∧ mainRun ⟨Option.none, Option.none, Option.none⟩
        ⟨true, Except.ok [], fun _ => Except.ok ()⟩ = ⟨1, [], Option.none⟩
    ∧ mainRun ⟨Option.none, Option.none, Option.some "out"⟩
        ⟨true, Except.ok [], fun _ => Except.ok ()⟩ = ⟨1, [], Option.none⟩ :=
  ⟨(mainRun_error_isolation.1 ⟨Option.none, Option.none, Option.some "out"⟩
      ⟨true, Except.ok ["a.bin"], fun _ => Except.ok ()⟩ ["a.bin"]
      (by simp) (by intro h; decide) rfl (by simp)).1,
   mainRun_error_isolation.2.1 ⟨Option.some "http://x", Option.none, Option.none⟩
      ⟨true, Except.ok [], fun _ => Except.ok ()⟩ (by simp) (by decide),
   mainRun_error_isolation.2.2.1 ⟨Option.none, Option.none, Option.none⟩
      ⟨true, Except.ok [], fun _ => Except.ok ()⟩ rfl (by decide),
   mainRun_error_isolation.2.2.2 ⟨Option.none, Option.none, Option.some "out"⟩
      ⟨true, Except.ok [], fun _ => Except.ok ()⟩ (by simp) (by intro h; decide) rfl⟩

/-- Witness for C6's amended statement at a concrete path with uppercase
letters and a space in its components. -/
theorem generateBucketName_sanitized_witness :
    generateBucketName (fun _ => Option.none) ⟨["Flights"], "Log 01"⟩ ≠ ""
    ∧ (generateBucketName (fun _ => Option.none)
        ⟨["Flights"], "Log 01"⟩).toList.all bucketCharOK = true :=
  generateBucketName_sanitized (fun _ => Option.none) ⟨["Flights"], "Log 01"⟩
